import Mathlib

/-!
# Verification of the `awssign` AWS Signature Version 4 signer

A shallow embedding of `awssign.go` (package `awssign`): the header
canonicalizer, canonical-request builder, string-to-sign builder, HMAC-SHA256
signing-key derivation chain, signature calculator and the `Sign`
orchestrator, together with theorems settling the specified properties.

Strings are modelled as Lean `String`; byte strings as `List Nat` with each
byte below 256; Go's `time.Time` as an explicit UTC field record. SHA-256 and
HMAC-SHA256 are embedded executably over `Nat` words reduced modulo `2 ^ 32`.
-/

set_option maxRecDepth 4000000
set_option maxHeartbeats 4000000

namespace AwsSign

/-! ## Bytes and hex -/

/-- UTF-8 encoding of a single code point, as bytes. -/
def utf8Bytes (c : Nat) : List Nat :=
  if c < 0x80 then [c]
  else if c < 0x800 then [0xC0 + c / 64, 0x80 + c % 64]
  else if c < 0x10000 then
    [0xE0 + c / 4096, 0x80 + (c / 64) % 64, 0x80 + c % 64]
  else
    [0xF0 + c / 262144, 0x80 + (c / 4096) % 64, 0x80 + (c / 64) % 64, 0x80 + c % 64]

/-- The UTF-8 bytes of a string (Go `[]byte(s)`). -/
def strBytes (s : String) : List Nat :=
  (s.data.map (fun ch => utf8Bytes ch.toNat)).flatten

/-- The sixteen lowercase hex digits. -/
def hexDigits : List Char := "0123456789abcdef".data

/-- Lowercase hex digit for a value below 16. -/
def hexChar (n : Nat) : Char := hexDigits.getD n '0'

/-- Lowercase hex encoding of a byte string (Go `hex.EncodeToString`, `%x`). -/
def bytesToHex (bs : List Nat) : String :=
  String.mk ((bs.map (fun b => [hexChar (b / 16), hexChar (b % 16)])).flatten)

/-! ## SHA-256 over `Nat` words -/

/-- 32-bit rotate right, on a word below `2 ^ 32`. -/
def rotr (n w : Nat) : Nat := ((w >>> n) ||| (w <<< (32 - n))) % 2 ^ 32

/-- The eight 32-bit working variables of the SHA-256 state. -/
structure Hash8 where
  a : Nat
  b : Nat
  c : Nat
  d : Nat
  e : Nat
  f : Nat
  g : Nat
  h : Nat

/-- SHA-256 initial hash value (FIPS 180-4 §5.3.3, written in decimal). -/
def initH : Hash8 :=
  ⟨1779033703, 3144134277, 1013904242, 2773480762,
   1359893119, 2600822924, 528734635, 1541459225⟩

/-- SHA-256 round constants (FIPS 180-4 §4.2.2, written in decimal). -/
def K256 : List Nat :=
  [1116352408, 1899447441, 3049323471, 3921009573, 961987163, 1508970993,
   2453635748, 2870763221, 3624381080, 310598401, 607225278, 1426881987,
   1925078388, 2162078206, 2614888103, 3248222580, 3835390401, 4022224774,
   264347078, 604807628, 770255983, 1249150122, 1555081692, 1996064986,
   2554220882, 2821834349, 2952996808, 3210313671, 3336571891, 3584528711,
   113926993, 338241895, 666307205, 773529912, 1294757372, 1396182291,
   1695183700, 1986661051, 2177026350, 2456956037, 2730485921, 2820302411,
   3259730800, 3345764771, 3516065817, 3600352804, 4094571909, 275423344,
   430227734, 506948616, 659060556, 883997877, 958139571, 1322822218,
   1537002063, 1747873779, 1955562222, 2024104815, 2227730452, 2361852424,
   2428436474, 2756734187, 3204031479, 3329325298]

/-- Big-endian 8-byte rendering of the message bit length. -/
def lenBytes (bitLen : Nat) : List Nat :=
  [bitLen / 2 ^ 56 % 256, bitLen / 2 ^ 48 % 256, bitLen / 2 ^ 40 % 256,
   bitLen / 2 ^ 32 % 256, bitLen / 2 ^ 24 % 256, bitLen / 2 ^ 16 % 256,
   bitLen / 2 ^ 8 % 256, bitLen % 256]

/-- SHA-256 padding: append `0x80`, zeros to 56 mod 64, then the bit length. -/
def padMessage (msg : List Nat) : List Nat :=
  msg ++ [0x80] ++ List.replicate ((119 - msg.length % 64) % 64) 0
      ++ lenBytes (msg.length * 8)

/-- Split a byte string into successive 64-byte blocks; the first argument is
recursion fuel, always called with at least the length of the list. -/
def toBlocks : Nat → List Nat → List (List Nat)
  | 0, _ => []
  | _, [] => []
  | fuel + 1, l => l.take 64 :: toBlocks fuel (l.drop 64)

/-- Big-endian packing of bytes into 32-bit words. -/
def bytesToWords : List Nat → List Nat
  | b0 :: b1 :: b2 :: b3 :: rest =>
    (b0 * 2 ^ 24 + b1 * 2 ^ 16 + b2 * 2 ^ 8 + b3) :: bytesToWords rest
  | _ => []

/-- The remaining words of the SHA-256 message schedule, computed from a
sliding window of the previous sixteen words
(`W[t] = (W[t-16] + s0(W[t-15]) + W[t-7] + s1(W[t-2])) mod 2^32`). -/
def scheduleRest (k w0 w1 w2 w3 w4 w5 w6 w7 w8 w9 w10 w11 w12 w13 w14 w15 : Nat) :
    List Nat :=
  match k with
  | 0 => []
  | k + 1 =>
    let s0 := rotr 7 w1 ^^^ rotr 18 w1 ^^^ (w1 >>> 3)
    let s1 := rotr 17 w14 ^^^ rotr 19 w14 ^^^ (w14 >>> 10)
    let w16 := (w0 + s0 + w9 + s1) % 2 ^ 32
    w16 :: scheduleRest k w1 w2 w3 w4 w5 w6 w7 w8 w9 w10 w11 w12 w13 w14 w15 w16
termination_by structural k

/-- Extend the sixteen block words to the 64-entry message schedule. -/
def schedule (w : List Nat) : List Nat :=
  match w with
  | [w0, w1, w2, w3, w4, w5, w6, w7, w8, w9, w10, w11, w12, w13, w14, w15] =>
    w ++ scheduleRest 48 w0 w1 w2 w3 w4 w5 w6 w7 w8 w9 w10 w11 w12 w13 w14 w15
  | _ => []

/-- One SHA-256 compression round, consuming a `(K, W)` pair. -/
def compressStep (s : Hash8) (kw : Nat × Nat) : Hash8 :=
  let S1 := rotr 6 s.e ^^^ rotr 11 s.e ^^^ rotr 25 s.e
  let ch := (s.e &&& s.f) ^^^ ((s.e ^^^ 0xffffffff) &&& s.g)
  let temp1 := (s.h + S1 + ch + kw.1 + kw.2) % 2 ^ 32
  let S0 := rotr 2 s.a ^^^ rotr 13 s.a ^^^ rotr 22 s.a
  let maj := (s.a &&& s.b) ^^^ (s.a &&& s.c) ^^^ (s.b &&& s.c)
  let temp2 := (S0 + maj) % 2 ^ 32
  ⟨(temp1 + temp2) % 2 ^ 32, s.a, s.b, s.c, (s.d + temp1) % 2 ^ 32, s.e, s.f, s.g⟩

/-- Process one 64-byte block into the running hash state. -/
def compressBlock (s : Hash8) (block : List Nat) : Hash8 :=
  let ws := schedule (bytesToWords block)
  let t := (K256.zip ws).foldl compressStep s
  ⟨(s.a + t.a) % 2 ^ 32, (s.b + t.b) % 2 ^ 32, (s.c + t.c) % 2 ^ 32,
   (s.d + t.d) % 2 ^ 32, (s.e + t.e) % 2 ^ 32, (s.f + t.f) % 2 ^ 32,
   (s.g + t.g) % 2 ^ 32, (s.h + t.h) % 2 ^ 32⟩

/-- Big-endian bytes of one 32-bit word. -/
def wordBytes (w : Nat) : List Nat :=
  [w / 2 ^ 24 % 256, w / 2 ^ 16 % 256, w / 2 ^ 8 % 256, w % 256]

/-- SHA-256 of a byte string, as its 32 digest bytes. -/
def sha256 (msg : List Nat) : List Nat :=
  let padded := padMessage msg
  let final := (toBlocks padded.length padded).foldl compressBlock initH
  wordBytes final.a ++ wordBytes final.b ++ wordBytes final.c ++ wordBytes final.d
    ++ wordBytes final.e ++ wordBytes final.f ++ wordBytes final.g ++ wordBytes final.h

/-- HMAC-SHA256 (Go `hmac.New(sha256.New, key)` then `Write`/`Sum`). -/
def hmacSha256 (key msg : List Nat) : List Nat :=
  let k0 := if 64 < key.length then sha256 key else key
  let kp := k0 ++ List.replicate (64 - k0.length) 0
  sha256 ((kp.map (fun b => b ^^^ 0x5c)) ++ sha256 ((kp.map (fun b => b ^^^ 0x36)) ++ msg))

/-! ## String ordering, splitting, lower-casing

Go's `sort.Strings` orders strings byte-wise; on UTF-8 data this coincides
with code-point-lexicographic order, which `listLe` implements executably. -/

/-- Lexicographic comparison of character lists by code point. -/
def listLe : List Char → List Char → Bool
  | [], _ => true
  | _ :: _, [] => false
  | a :: as, b :: bs =>
    a.toNat < b.toNat || (a.toNat = b.toNat && listLe as bs)

/-- `a` sorts no later than `b` in Go's byte-wise string order. -/
def strLeb (a b : String) : Bool := listLe a.data b.data

/-- Sort a list of strings ascending (Go `sort.Strings`). -/
def sortStrings (l : List String) : List String :=
  List.insertionSort (fun a b => strLeb a b = true) l

/-- Split a character list at every occurrence of `c` (separators dropped). -/
def splitOnChar (c : Char) : List Char → List (List Char)
  | [] => [[]]
  | x :: xs =>
    if x = c then [] :: splitOnChar c xs
    else
      match splitOnChar c xs with
      | [] => [[x]]
      | y :: ys => (x :: y) :: ys

/-- Split a string at every occurrence of a one-character separator
(Go `strings.Split` with a single-byte separator). -/
def splitString (sep : Char) (s : String) : List String :=
  (splitOnChar sep s.data).map String.mk

/-- Lower-case a string character-wise (Go `strings.ToLower`; `Char.toLower`
is the ASCII case mapping, which agrees with Go on ASCII header names). -/
def stringToLower (s : String) : String := String.mk (s.data.map Char.toLower)

/-! ## Timestamps (Go `time.Time`, always UTC in the signer) -/

/-- A UTC instant at second precision, as Go's signer consumes it. -/
structure Timestamp where
  year : Nat
  month : Nat
  day : Nat
  hour : Nat
  minute : Nat
  second : Nat

/-- Two-digit zero-padded decimal rendering. -/
def pad2 (n : Nat) : String := String.mk [hexChar (n / 10 % 10), hexChar (n % 10)]

/-- Four-digit zero-padded decimal rendering. -/
def pad4 (n : Nat) : String :=
  String.mk [hexChar (n / 1000 % 10), hexChar (n / 100 % 10), hexChar (n / 10 % 10),
    hexChar (n % 10)]

/-- Go layout `"20060102"` (the `dateFormat` constant): date-only rendering. -/
def formatDate (t : Timestamp) : String := pad4 t.year ++ pad2 t.month ++ pad2 t.day

/-- Go layout `"20060102T150405Z"` (the `dateTimeFormat` constant): compact
timestamp rendering. -/
def formatDateTime (t : Timestamp) : String :=
  formatDate t ++ "T" ++ pad2 t.hour ++ pad2 t.minute ++ pad2 t.second ++ "Z"

/-- Go `time.RFC3339` rendering of a UTC instant (`"2006-01-02T15:04:05Z"`,
the zone suffix collapsing to `Z` for UTC). -/
def formatRFC3339 (t : Timestamp) : String :=
  pad4 t.year ++ "-" ++ pad2 t.month ++ "-" ++ pad2 t.day ++ "T"
    ++ pad2 t.hour ++ ":" ++ pad2 t.minute ++ ":" ++ pad2 t.second ++ "Z"

/-! ## The request model (`net/http` and `net/url` surface used by the signer) -/

/-- The view of `http.Request` the signer reads: `Method`, `URL.EscapedPath()`,
`URL.Query()` (a multimap), `Header` (a multimap with unique canonical keys),
`Host`, and the body stream (which the signer never reads). -/
structure Request where
  method : String
  escapedPath : String
  query : List (String × List String)
  header : List (String × List String)
  host : String
  body : String

/-- Go `url.QueryEscape` byte classification: letters, digits and `-_.~` stay. -/
def isUnreservedByte (b : Nat) : Bool :=
  (48 ≤ b && b ≤ 57) || (65 ≤ b && b ≤ 90) || (97 ≤ b && b ≤ 122)
    || b = 45 || b = 95 || b = 46 || b = 126

/-- The sixteen uppercase hex digits (Go's `upperhex` string for escapes). -/
def hexDigitsUpper : List Char := "0123456789ABCDEF".data

/-- Escape one byte as `url.QueryEscape` does: unreserved bytes unchanged,
space to `+`, everything else `%XX` with uppercase hex. -/
def queryEscapeByte (b : Nat) : String :=
  if isUnreservedByte b then String.mk [Char.ofNat b]
  else if b = 32 then "+"
  else String.mk ['%', hexDigitsUpper.getD (b / 16) '0', hexDigitsUpper.getD (b % 16) '0']

/-- Go `url.QueryEscape` over the UTF-8 bytes of a string. -/
def queryEscape (s : String) : String :=
  String.join ((strBytes s).map queryEscapeByte)

/-- Go `url.Values.Encode()`: iterate the value map in ascending key order,
emitting `k=v` for each value of each key in stored order, joined by `&`.
The multimap is an association list standing for the Go map, whose keys
are unique; iterating it sorted by key is the map's sorted-key iteration. -/
def urlValuesEncode (q : List (String × List String)) : String :=
  String.intercalate "&"
    ((List.insertionSort (fun a b => strLeb a.1 b.1 = true) q).flatMap
      (fun p => p.2.map (fun v => queryEscape p.1 ++ "=" ++ queryEscape v)))

/-! ## The signer (`awssign.go`) -/

/-- The `algorithm` constant. -/
def algorithm : String := "AWS4-HMAC-SHA256"

/-- The `dateHeader` constant. -/
def dateHeader : String := "X-Amz-Date"

/-- The `hostHeader` constant. -/
def hostHeader : String := "host"

/-- The `terminationString` constant. -/
def terminationString : String := "aws4_request"

/-- The `Signer` configuration struct. -/
structure Signer where
  Region : String
  Service : String
  AccessKeyID : String
  AccessKeySecret : String

/-- The sorted name list underlying `signedHeaders`: every header name
lower-cased, the literal `host` appended, then sorted. -/
def signedHeadersList (header : List (String × List String)) : List String :=
  sortStrings (header.map (fun p => stringToLower p.1) ++ [hostHeader])

/-- `signedHeaders`: the sorted, semicolon-joined signed header names. -/
def signedHeaders (header : List (String × List String)) : String :=
  String.intercalate ";" (signedHeadersList header)

/-- The `lowerCaseHeaders` map of `canonicalHeaders`: each header name
lower-cased with its values joined by one space, then the `host` entry
assigned last (a later entry overrides an earlier one on lookup, as a Go
map assignment does). -/
def lowerCaseHeaders (header : List (String × List String)) (host : String) :
    List (String × String) :=
  header.map (fun p => (stringToLower p.1, String.intercalate " " p.2)) ++ [(hostHeader, host)]

/-- Go map lookup over the association list: the last binding of a key wins,
and a missing key yields the zero value `""`. -/
def mapGet (m : List (String × String)) (k : String) : String :=
  (m.foldl (fun acc kv => if kv.1 = k then some kv.2 else acc) none).getD ""

/-- `canonicalHeaders`: one `name:value\n` line per signed header name (names
recovered by splitting `signedHeaders` on `;`), a blank line, then the
signed-header name list. -/
def canonicalHeaders (header : List (String × List String)) (host : String) : String :=
  let sh := signedHeaders header
  let m := lowerCaseHeaders header host
  let headerNames := splitString ';' sh
  String.join (headerNames.map (fun name => name ++ ":" ++ mapGet m name ++ "\n"))
    ++ "\n" ++ sh

/-- `hashedBody`: lowercase hex SHA-256 of the payload string's bytes. -/
def hashedBody (payload : String) : String := bytesToHex (sha256 (strBytes payload))

/-- `canonicalString`: method, escaped path, encoded query, canonical headers
block and payload hash, separated by single newlines. -/
def canonicalString (request : Request) (payload : String) : String :=
  request.method ++ "\n" ++ request.escapedPath ++ "\n" ++ urlValuesEncode request.query
    ++ "\n" ++ canonicalHeaders request.header request.host ++ "\n" ++ hashedBody payload

/-- `credentialScope`: `date/region/service/aws4_request`. -/
def credentialScope (timestamp : Timestamp) (region service : String) : String :=
  formatDate timestamp ++ "/" ++ region ++ "/" ++ service ++ "/" ++ terminationString

/-- `stringToSign`: algorithm, compact timestamp, credential scope and hashed
canonical request, separated by single newlines. -/
def stringToSign (timestamp : Timestamp) (region service hashedCanonicalRequest : String) :
    String :=
  algorithm ++ "\n" ++ formatDateTime timestamp ++ "\n"
    ++ credentialScope timestamp region service ++ "\n" ++ hashedCanonicalRequest

/-- Stage 0 of `deriveSigningKey`: `kSecret = "AWS4" + awsKey`. -/
def kSecret (awsKey : String) : List Nat := strBytes ("AWS4" ++ awsKey)

/-- Stage 1 of `deriveSigningKey`: `kDate = HMAC(kSecret, date)`. -/
def kDate (awsKey : String) (date : Timestamp) : List Nat :=
  hmacSha256 (kSecret awsKey) (strBytes (formatDate date))

/-- Stage 2 of `deriveSigningKey`: `kRegion = HMAC(kDate, region)`. -/
def kRegion (awsKey : String) (date : Timestamp) (region : String) : List Nat :=
  hmacSha256 (kDate awsKey date) (strBytes region)

/-- Stage 3 of `deriveSigningKey`: `kService = HMAC(kRegion, service)`. -/
def kService (awsKey : String) (date : Timestamp) (region service : String) : List Nat :=
  hmacSha256 (kRegion awsKey date region) (strBytes service)

/-- `deriveSigningKey`: stage 4, `HMAC(kService, terminationString)`. -/
def deriveSigningKey (awsKey : String) (date : Timestamp) (region service : String) :
    List Nat :=
  hmacSha256 (kService awsKey date region service) (strBytes terminationString)

/-- `calculateSignature`: hex of `HMAC(signingKey, stringToSign)`. -/
def calculateSignature (signingKey : List Nat) (stringToSign : String) : String :=
  bytesToHex (hmacSha256 signingKey (strBytes stringToSign))

/-- `AWSSignature`: hash the canonical request, build the string-to-sign,
derive the signing key and compute the signature. -/
def AWSSignature (request : Request) (payload : String) (timestamp : Timestamp)
    (region service key : String) : String :=
  let hashed := bytesToHex (sha256 (strBytes (canonicalString request payload)))
  calculateSignature (deriveSigningKey key timestamp region service)
    (stringToSign timestamp region service hashed)

/-- Go `http.Header.Add`: append the value to the (unique) entry with this
key if present, else append a fresh entry. -/
def headerAdd (h : List (String × List String)) (k v : String) :
    List (String × List String) :=
  if h.any (fun p => p.1 = k) then
    h.map (fun p => if p.1 = k then (p.1, p.2 ++ [v]) else p)
  else h ++ [(k, [v])]

/-- Go `http.Header` lookup: the values of a key (last entry wins, missing
key yields `[]`). -/
def headerGet (h : List (String × List String)) (k : String) : List String :=
  (h.foldl (fun acc p => if p.1 = k then some p.2 else acc) none).getD []

/-- The value of the `Authorization` header `Sign` attaches, computed from
the request as it stands after the date header was added. -/
def authorizationValue (signer : Signer) (timestamp : Timestamp) (r1 : Request)
    (payload : String) : String :=
  algorithm ++ ", Credential="
    ++ signer.AccessKeyID ++ "/" ++ credentialScope timestamp signer.Region signer.Service
    ++ ", SignedHeaders=" ++ signedHeaders r1.header
    ++ ", Signature="
    ++ AWSSignature r1 payload timestamp signer.Region signer.Service signer.AccessKeySecret

/-- `Signer.Sign`: attach the date header (rendered with Go's `time.RFC3339`
layout), then attach the `Authorization` header computed over the updated
request. The wall-clock instant is passed explicitly in place of
`time.Now().UTC()`. -/
def Sign (signer : Signer) (timestamp : Timestamp) (request : Request)
    (payload : String) : Request :=
  let r1 := { request with
    header := headerAdd request.header dateHeader (formatRFC3339 timestamp) }
  { r1 with
    header := headerAdd r1.header "Authorization"
      (authorizationValue signer timestamp r1 payload) }

/-! ## Spec-side rendering of the query segment, for refinement comparison -/

/-- Modelled from the spec: the query segment as §4.2 words it — every
parameter name and value percent-encoded, then parameters sorted by name
with ties broken by value, joined as `name=value` pairs with `&`. Stated
from the spec's words so it can be compared with `urlValuesEncode`, the
encoding the code actually performs. -/
def specSortedQueryEncode (q : List (String × List String)) : String :=
  let pairs := q.flatMap (fun p => p.2.map (fun v => (p.1, v)))
  let sorted := List.insertionSort
    (fun a b : String × String =>
      (if a.1 = b.1 then strLeb a.2 b.2 else strLeb a.1 b.1) = true) pairs
  String.intercalate "&" (sorted.map (fun pv => queryEscape pv.1 ++ "=" ++ queryEscape pv.2))

/-! ## Concrete inputs -/

/-- The published test vector's instant, 2015-08-30T12:36:00Z. -/
def vecTime : Timestamp := ⟨2015, 8, 30, 12, 36, 0⟩

/-- The published test vector's secret access key. -/
def vecSecret : String := "wJalrXUtnFEMI/K7MDENG+bPxRfiCYEXAMPLEKEY"

/-- The published test vector's request: `GET /?Action=ListUsers&Version=2010-05-08`
against `iam.amazonaws.com` with the content-type header and the compact
`X-Amz-Date` header the vector prescribes. -/
def vecReq : Request :=
  { method := "GET", escapedPath := "/"
    query := [("Action", ["ListUsers"]), ("Version", ["2010-05-08"])]
    header := [("X-Amz-Date", ["20150830T123600Z"]),
               ("Content-Type", ["application/x-www-form-urlencoded; charset=utf-8"])]
    host := "iam.amazonaws.com", body := "" }

/-- A signer configured for the published test vector. -/
def vecSigner : Signer := ⟨"us-east-1", "iam", "AKIDEXAMPLE", vecSecret⟩

/-- A request with one multi-valued query parameter whose values are not in
ascending order. -/
def tieReq : Request :=
  { method := "GET", escapedPath := "/", query := [("a", ["z", "b"])], header := []
    host := "example.com", body := "" }

/-- A request whose path is empty — input §4.2 declares never legal. -/
def emptyPathReq : Request :=
  { method := "GET", escapedPath := "", query := [], header := []
    host := "example.com", body := "" }

/-- A request carrying one caller-supplied header, for frame checks. -/
def fooReq : Request :=
  { method := "GET", escapedPath := "/", query := [], header := [("Foo", ["bar"])]
    host := "example.com", body := "" }

/-! ## Order facts about the byte-wise string comparison -/

theorem listLe_total : ∀ a b : List Char, listLe a b = true ∨ listLe b a = true
  | [], _ => Or.inl rfl
  | _ :: _, [] => Or.inr rfl
  | a :: as, b :: bs => by
    simp only [listLe, Bool.or_eq_true, Bool.and_eq_true, decide_eq_true_eq]
    rcases Nat.lt_trichotomy a.toNat b.toNat with h | h | h
    · exact Or.inl (Or.inl h)
    · rcases listLe_total as bs with hr | hr
      · exact Or.inl (Or.inr ⟨h, hr⟩)
      · exact Or.inr (Or.inr ⟨h.symm, hr⟩)
    · exact Or.inr (Or.inl h)

theorem listLe_trans : ∀ a b c : List Char,
    listLe a b = true → listLe b c = true → listLe a c = true
  | [], _, _, _, _ => rfl
  | _ :: _, [], _, h, _ => by simp [listLe] at h
  | _ :: _, _ :: _, [], _, h => by simp [listLe] at h
  | a :: as, b :: bs, c :: cs, h1, h2 => by
    simp only [listLe, Bool.or_eq_true, Bool.and_eq_true, decide_eq_true_eq] at h1 h2 ⊢
    rcases h1 with h1 | ⟨he1, hr1⟩
    · rcases h2 with h2 | ⟨he2, _⟩
      · exact Or.inl (by omega)
      · exact Or.inl (by omega)
    · rcases h2 with h2 | ⟨he2, hr2⟩
      · exact Or.inl (by omega)
      · exact Or.inr ⟨by omega, listLe_trans as bs cs hr1 hr2⟩

theorem listLe_antisymm : ∀ a b : List Char,
    listLe a b = true → listLe b a = true → a = b
  | [], [], _, _ => rfl
  | [], _ :: _, _, h => by simp [listLe] at h
  | _ :: _, [], h, _ => by simp [listLe] at h
  | a :: as, b :: bs, h1, h2 => by
    simp only [listLe, Bool.or_eq_true, Bool.and_eq_true, decide_eq_true_eq] at h1 h2
    rcases h1 with h1 | ⟨he1, hr1⟩
    · rcases h2 with h2 | ⟨he2, _⟩ <;> omega
    · rcases h2 with h2 | ⟨_, hr2⟩
      · omega
      · have hab : a = b := Char.ext (UInt32.toNat.inj he1)
        rw [hab, listLe_antisymm as bs hr1 hr2]

instance : IsTotal String fun a b => strLeb a b = true :=
  ⟨fun a b => listLe_total a.data b.data⟩

instance : IsTrans String fun a b => strLeb a b = true :=
  ⟨fun a b c => listLe_trans a.data b.data c.data⟩

instance : IsAntisymm String fun a b => strLeb a b = true :=
  ⟨fun a b h1 h2 => by
    cases a; cases b; exact congrArg String.mk (listLe_antisymm _ _ h1 h2)⟩

instance : IsTotal (String × List String) fun a b => strLeb a.1 b.1 = true :=
  ⟨fun a b => listLe_total a.1.data b.1.data⟩

instance : IsTrans (String × List String) fun a b => strLeb a.1 b.1 = true :=
  ⟨fun a b c => listLe_trans a.1.data b.1.data c.1.data⟩

/-! ## Lower-casing is idempotent -/

theorem toLower_toLower (c : Char) : c.toLower.toLower = c.toLower := by
  simp only [Char.toLower]
  by_cases h : c.toNat ≥ 65 ∧ c.toNat ≤ 90
  · rw [if_pos h]
    have hv : (Char.ofNat (c.toNat + 32)).toNat = c.toNat + 32 := by
      simp only [Char.ofNat, Nat.isValidChar]
      rw [dif_pos (Or.inl (by omega))]
      rfl
    rw [if_neg (by omega)]
  · rw [if_neg h, if_neg h]

theorem stringToLower_idem (s : String) :
    stringToLower (stringToLower s) = stringToLower s := by
  simp only [stringToLower]
  exact congrArg String.mk (by
    rw [List.map_map]
    exact List.map_congr_left fun c _ => toLower_toLower c)

/-! ## Shape of SHA-256 digests -/

theorem sha256_length (msg : List Nat) : (sha256 msg).length = 32 := by
  simp [sha256, wordBytes]

theorem mem_sha256_lt (msg : List Nat) : ∀ b ∈ sha256 msg, b < 256 := by
  intro b hb
  simp only [sha256, wordBytes, List.mem_append, List.mem_cons, List.not_mem_nil,
    or_false] at hb
  omega

theorem hmacSha256_length (key msg : List Nat) : (hmacSha256 key msg).length = 32 := by
  simp only [hmacSha256]
  exact sha256_length _

theorem mem_hmacSha256_lt (key msg : List Nat) : ∀ b ∈ hmacSha256 key msg, b < 256 := by
  simp only [hmacSha256]
  exact mem_sha256_lt _

/-! ## Header map lemmas -/

theorem headerGet_headerAdd_ne (h : List (String × List String)) (k v k' : String)
    (hne : k' ≠ k) : headerGet (headerAdd h k v) k' = headerGet h k' := by
  simp only [headerGet, headerAdd]
  by_cases hc : h.any (fun p => p.1 = k)
  · rw [if_pos hc, List.foldl_map]
    congr 1
    refine List.foldl_ext _ _ none fun acc p _ => ?_
    by_cases hp : p.1 = k
    · rw [if_pos hp]
      simp only
      rw [if_neg (by rw [hp]; exact fun hh => hne hh.symm),
        if_neg (by rw [hp]; exact fun hh => hne hh.symm)]
    · rw [if_neg hp]
  · rw [if_neg hc, List.foldl_append]
    simp only [List.foldl_cons, List.foldl_nil]
    rw [if_neg fun hh => hne hh.symm]

theorem foldl_headerGet_none (h : List (String × List String)) (k : String)
    (hn : ∀ p ∈ h, p.1 ≠ k) :
    h.foldl (fun acc p => if p.1 = k then some p.2 else acc)
      (none : Option (List String)) = none := by
  induction h with
  | nil => rfl
  | cons p t ih =>
    simp only [List.foldl_cons]
    rw [if_neg (hn p (List.mem_cons_self p t))]
    exact ih fun q hq => hn q (List.mem_cons_of_mem p hq)

theorem foldl_headerAdd_map (h : List (String × List String)) (k v : String) :
    ∀ acc : Option (List String),
      (h.map fun p => if p.1 = k then (p.1, p.2 ++ [v]) else p).foldl
          (fun acc p => if p.1 = k then some p.2 else acc)
          (acc.map fun l => l ++ [v]) =
        (h.foldl (fun acc p => if p.1 = k then some p.2 else acc) acc).map
          fun l => l ++ [v] := by
  induction h with
  | nil => intro acc; rfl
  | cons p t ih =>
    intro acc
    simp only [List.map_cons, List.foldl_cons]
    by_cases hp : p.1 = k
    · rw [if_pos hp]
      simp only
      rw [if_pos hp, if_pos hp]
      exact ih (some p.2)
    · rw [if_neg hp, if_neg hp, if_neg hp]
      exact ih acc

theorem foldl_headerGet_isSome (t : List (String × List String)) (k : String) :
    ∀ acc : Option (List String), acc.isSome = true →
      (t.foldl (fun acc p => if p.1 = k then some p.2 else acc) acc).isSome = true := by
  induction t with
  | nil => exact fun acc h => h
  | cons p s ih =>
    intro acc h
    simp only [List.foldl_cons]
    by_cases hp : p.1 = k
    · rw [if_pos hp]; exact ih _ rfl
    · rw [if_neg hp]; exact ih _ h

theorem foldl_headerGet_any (h : List (String × List String)) (k : String)
    (hc : h.any (fun p => p.1 = k) = true) :
    (h.foldl (fun acc p => if p.1 = k then some p.2 else acc)
      (none : Option (List String))).isSome = true := by
  induction h with
  | nil => simp at hc
  | cons p t ih =>
    simp only [List.any_cons, Bool.or_eq_true] at hc
    simp only [List.foldl_cons]
    by_cases hp : p.1 = k
    · rw [if_pos hp]; exact foldl_headerGet_isSome t k _ rfl
    · rw [if_neg hp]
      rcases hc with hc | hc
      · exact absurd (of_decide_eq_true hc) hp
      · exact ih hc

theorem headerGet_headerAdd_self (h : List (String × List String)) (k v : String) :
    headerGet (headerAdd h k v) k = headerGet h k ++ [v] := by
  simp only [headerGet, headerAdd]
  by_cases hc : h.any (fun p => p.1 = k)
  · rw [if_pos hc]
    have hmap := foldl_headerAdd_map h k v none
    simp only [Option.map_none'] at hmap
    rw [hmap]
    obtain ⟨l, hl⟩ := Option.isSome_iff_exists.mp (foldl_headerGet_any h k hc)
    rw [hl]
    rfl
  · rw [if_neg hc, List.foldl_append]
    simp only [List.foldl_cons, List.foldl_nil, if_pos rfl]
    rw [foldl_headerGet_none h k]
    · rfl
    · intro p hp hpk
      exact absurd (List.any_eq_true.mpr ⟨p, hp, decide_eq_true hpk⟩) hc

/-! ## Claim theorems -/

/-- Claim C1 (the code diverges from it): `Sign` attaches the date header
rendered with Go's punctuated `time.RFC3339` layout, while the string-to-sign
embeds the compact `YYYYMMDDTHHMMSSZ` rendering of the same instant; at the
vector instant the two renderings are distinct strings, so the attached
header value is not byte-identical to the timestamp in the string-to-sign. -/
theorem dateHeader_diverges_from_stringToSign :
    headerGet (Sign vecSigner vecTime
        { method := "GET", escapedPath := "/", query := [], header := []
          host := "iam.amazonaws.com", body := "" } "").header dateHeader
      = ["2015-08-30T12:36:00Z"]
    ∧ stringToSign vecTime "us-east-1" "iam" "HASH"
      = "AWS4-HMAC-SHA256\n20150830T123600Z\n20150830/us-east-1/iam/aws4_request\nHASH"
    ∧ ("2015-08-30T12:36:00Z" : String) ≠ "20150830T123600Z" := by
  refine ⟨?_, by decide, by decide⟩
  show headerGet (headerAdd (headerAdd [] dateHeader (formatRFC3339 vecTime))
    "Authorization" _) dateHeader = _
  rw [headerGet_headerAdd_ne _ _ _ _ (by decide), headerGet_headerAdd_self]
  decide

/-- Claim C4: for every header multimap and host string, the signed-header
names are exactly the lower-cased caller names plus the literal `host`
(as a permutation, the list being their sorted arrangement); `host` occurs
exactly once whenever no caller name lower-cases to `host`; the lookup map
of the canonical headers block resolves `host` to the transport host, its
entry overriding any caller-supplied one; and the block renders one
`name:value` line per signed name through that lookup. -/
theorem headerCanonicalizer_lowercases_and_synthesizes_host :
    ∀ (header : List (String × List String)) (host : String),
      (signedHeadersList header).Perm
          (header.map (fun p => stringToLower p.1) ++ [hostHeader])
      ∧ ((∀ p ∈ header, stringToLower p.1 ≠ hostHeader) →
          List.count hostHeader (signedHeadersList header) = 1)
      ∧ mapGet (lowerCaseHeaders header host) hostHeader = host
      ∧ canonicalHeaders header host =
          String.join ((splitString ';' (signedHeaders header)).map
            (fun name => name ++ ":" ++ mapGet (lowerCaseHeaders header host) name ++ "\n"))
          ++ "\n" ++ signedHeaders header := by
  intro header host
  refine ⟨List.perm_insertionSort _ _, ?_, ?_, rfl⟩
  · intro hno
    rw [signedHeadersList, sortStrings, (List.perm_insertionSort _ _).count_eq,
      List.count_append]
    rw [List.count_eq_zero.mpr (fun hmem => by
      obtain ⟨p, hp, he⟩ := List.mem_map.mp hmem
      exact hno p hp he)]
    simp [List.count_singleton]
  · simp only [mapGet, lowerCaseHeaders, List.foldl_append, List.foldl_cons,
      List.foldl_nil, if_pos rfl]
    rfl

/-- Witness for C4's conditional conjunct: a caller header set without a
`host` name yields exactly one `host` entry. -/
theorem headerCanonicalizer_host_once_witness :
    List.count hostHeader (signedHeadersList [("Content-Type", ["a"])]) = 1 :=
  (headerCanonicalizer_lowercases_and_synthesizes_host
    [("Content-Type", ["a"])] "example.com").2.1 (by decide)

/-- Counterexample to claim C5 as stated: for the query multimap
`a = [z, b]`, the code's encoding (and the canonical request's query
segment) keeps the values in stored order, `a=z&a=b`, while the spec's
sorted-by-name-then-value rendering is `a=b&a=z`. -/
theorem queryTies_counterexample :
    urlValuesEncode tieReq.query = "a=z&a=b"
    ∧ specSortedQueryEncode tieReq.query = "a=b&a=z"
    ∧ (splitString '\n' (canonicalString tieReq "")).getD 2 "" = "a=z&a=b"
    ∧ ("a=z&a=b" : String) ≠ "a=b&a=z" :=
  ⟨by decide, by decide, by decide, by decide⟩

/-- Claim C5 (amended: parameters are sorted by name, but repeated names
keep their values in stored order rather than sorted by value): the
canonical request is the five segments joined by single newlines with no
trailing newline; the query segment renders the parameters sorted by name,
each name's values in stored order, as `name=value` pairs joined by `&`;
the sorted parameter list is a permutation of the given one with its names
in ascending order; and an empty query set yields the empty string. -/
theorem canonicalRequest_shape :
    ∀ (r : Request) (payload : String),
      canonicalString r payload = String.intercalate "\n"
        [r.method, r.escapedPath, urlValuesEncode r.query,
         canonicalHeaders r.header r.host, hashedBody payload]
      ∧ urlValuesEncode r.query = String.intercalate "&"
          ((List.insertionSort (fun a b => strLeb a.1 b.1 = true) r.query).flatMap
            (fun p => p.2.map (fun v => queryEscape p.1 ++ "=" ++ queryEscape v)))
      ∧ (List.insertionSort (fun a b => strLeb a.1 b.1 = true) r.query).Perm r.query
      ∧ List.Sorted (fun a b => strLeb a b = true)
          ((List.insertionSort (fun a b => strLeb a.1 b.1 = true) r.query).map Prod.fst)
      ∧ urlValuesEncode [] = "" := by
  intro r payload
  refine ⟨rfl, rfl, List.perm_insertionSort _ _, ?_, rfl⟩
  exact List.Pairwise.map Prod.fst (fun a b hab => hab)
    (List.sorted_insertionSort (fun a b : String × List String => strLeb a.1 b.1 = true)
      r.query)

/-- Counterexample to claim C7 as stated: re-running the signed-header
computation on the names of its own output does not reproduce the list —
on the empty header set the output is `host`, and the re-run, whose input
now contains `host`, appends a second synthesized `host` and yields
`host;host`. -/
theorem signedHeaders_rerun_counterexample :
    signedHeaders ([] : List (String × List String)) = "host"
    ∧ signedHeaders ((splitString ';'
        (signedHeaders ([] : List (String × List String)))).map
          (fun n => (n, ([] : List String)))) = "host;host"
    ∧ ("host;host" : String) ≠ "host" :=
  ⟨by decide, by decide, by decide⟩

/-- Claim C7 (amended: the re-run reproduces the list only once the
synthesized `host` name is removed from the new header set, the computation
unconditionally appending `host` itself): for every header multimap none of
whose names lower-cases to `host`, feeding the non-`host` names of the
signed-header list back in as a header set yields the same sorted list. -/
theorem signedHeaders_rerun_minus_host :
    ∀ header : List (String × List String),
      (∀ p ∈ header, stringToLower p.1 ≠ hostHeader) →
      signedHeadersList
        (((signedHeadersList header).filter (fun n => n ≠ hostHeader)).map
          (fun n => (n, ([] : List String)))) = signedHeadersList header := by
  intro header hno
  have hLperm : (signedHeadersList header).Perm
      (header.map (fun p => stringToLower p.1) ++ [hostHeader]) :=
    List.perm_insertionSort _ _
  have hmapmap :
      ((((signedHeadersList header).filter (fun n => n ≠ hostHeader)).map
        (fun n => (n, ([] : List String)))).map (fun p => stringToLower p.1))
      = (signedHeadersList header).filter (fun n => n ≠ hostHeader) := by
    rw [List.map_map]
    have hstable : ∀ n ∈ (signedHeadersList header).filter (fun n => n ≠ hostHeader),
        stringToLower n = n := by
      intro n hn
      have hnA := hLperm.subset (List.mem_of_mem_filter hn)
      rcases List.mem_append.mp hnA with hm | hm
      · obtain ⟨p, _, he⟩ := List.mem_map.mp hm
        rw [← he, stringToLower_idem]
      · exact absurd (List.mem_singleton.mp hm)
          (of_decide_eq_true (List.mem_filter.mp hn).2)
    exact (List.map_congr_left fun n hn => hstable n hn).trans (List.map_id _)
  have hcount : List.count hostHeader (signedHeadersList header) = 1 := by
    rw [signedHeadersList, sortStrings, (List.perm_insertionSort _ _).count_eq,
      List.count_append]
    rw [List.count_eq_zero.mpr (fun hmem => by
      obtain ⟨p, hp, he⟩ := List.mem_map.mp hmem
      exact hno p hp he)]
    simp [List.count_singleton]
  have hX : ((signedHeadersList header).filter (fun n => n ≠ hostHeader)
      ++ [hostHeader]).Perm (signedHeadersList header) := by
    rw [List.perm_iff_count]
    intro x
    rw [List.count_append]
    by_cases hx : x = hostHeader
    · subst hx
      have h0 : List.count hostHeader
          ((signedHeadersList header).filter (fun n => n ≠ hostHeader)) = 0 :=
        List.count_eq_zero.mpr fun hmem =>
          of_decide_eq_true (List.mem_filter.mp hmem).2 rfl
      have h1 : List.count hostHeader [hostHeader] = 1 := by
        simp [List.count_singleton]
      omega
    · have h0 : List.count x
          ((signedHeadersList header).filter (fun n => n ≠ hostHeader)) =
          List.count x (signedHeadersList header) :=
        List.count_filter (decide_eq_true hx)
      have h1 : List.count x [hostHeader] = 0 := by
        rw [List.count_singleton]
        rw [if_neg]
        simp only [beq_iff_eq]
        exact fun hh => hx hh.symm
      omega
  show sortStrings
      (((((signedHeadersList header).filter (fun n => n ≠ hostHeader)).map
        (fun n => (n, ([] : List String)))).map (fun p => stringToLower p.1))
        ++ [hostHeader]) = signedHeadersList header
  rw [hmapmap]
  refine List.eq_of_perm_of_sorted ((List.perm_insertionSort _ _).trans hX)
    (List.sorted_insertionSort _ _) ?_
  show List.Sorted _ (sortStrings _)
  exact List.sorted_insertionSort _ _

/-- Witness for C7's amended theorem: the concrete header set
`Content-Type`, re-run without the synthesized `host`, reproduces its
signed-header list. -/
theorem signedHeaders_rerun_minus_host_witness :
    signedHeadersList
      (((signedHeadersList [("Content-Type", ["x"])]).filter
        (fun n => n ≠ hostHeader)).map (fun n => (n, ([] : List String))))
      = signedHeadersList [("Content-Type", ["x"])] :=
  signedHeaders_rerun_minus_host [("Content-Type", ["x"])] (by decide)

/-- Claim C8 (amended: the signer performs no input validation and has no
failure channel — even for an empty path it attaches an `Authorization`
header carrying a computed signature; per §4.6 malformed input is the
caller's responsibility): for every request with an empty path, `Sign`
appends the computed authorization value to the request's `Authorization`
header values. -/
theorem sign_signs_empty_path :
    ∀ (signer : Signer) (t : Timestamp) (r : Request) (payload : String),
      r.escapedPath = "" →
      headerGet (Sign signer t r payload).header "Authorization" =
        headerGet r.header "Authorization"
          ++ [authorizationValue signer t
                { r with header := headerAdd r.header dateHeader (formatRFC3339 t) }
                payload] := by
  intro signer t r payload _
  show headerGet
      (headerAdd (headerAdd r.header dateHeader (formatRFC3339 t)) "Authorization"
        (authorizationValue signer t
          { r with header := headerAdd r.header dateHeader (formatRFC3339 t) } payload))
      "Authorization" = _
  rw [headerGet_headerAdd_self, headerGet_headerAdd_ne _ _ _ _ (by decide)]

/-- Witness for C8's amended theorem at the concrete empty-path request. -/
theorem sign_signs_empty_path_witness :
    headerGet (Sign vecSigner vecTime emptyPathReq "").header "Authorization" =
      headerGet emptyPathReq.header "Authorization"
        ++ [authorizationValue vecSigner vecTime
              { emptyPathReq with
                header := headerAdd emptyPathReq.header dateHeader (formatRFC3339 vecTime) }
              ""] :=
  sign_signs_empty_path vecSigner vecTime emptyPathReq "" rfl

/-- Claim C9: `Sign` leaves the method, path, query, host, body and every
header other than the date and authorization headers unchanged; its whole
effect on the request is appending those two computed headers. -/
theorem sign_frame_effects :
    ∀ (signer : Signer) (t : Timestamp) (r : Request) (payload : String),
      (Sign signer t r payload).method = r.method
      ∧ (Sign signer t r payload).escapedPath = r.escapedPath
      ∧ (Sign signer t r payload).query = r.query
      ∧ (Sign signer t r payload).host = r.host
      ∧ (Sign signer t r payload).body = r.body
      ∧ (Sign signer t r payload).header =
          headerAdd (headerAdd r.header dateHeader (formatRFC3339 t)) "Authorization"
            (authorizationValue signer t
              { r with header := headerAdd r.header dateHeader (formatRFC3339 t) } payload)
      ∧ (∀ k, k ≠ dateHeader → k ≠ "Authorization" →
          headerGet (Sign signer t r payload).header k = headerGet r.header k) := by
  intro signer t r payload
  refine ⟨rfl, rfl, rfl, rfl, rfl, rfl, ?_⟩
  intro k h1 h2
  show headerGet
      (headerAdd (headerAdd r.header dateHeader (formatRFC3339 t)) "Authorization"
        (authorizationValue signer t
          { r with header := headerAdd r.header dateHeader (formatRFC3339 t) } payload))
      k = _
  rw [headerGet_headerAdd_ne _ _ _ _ h2, headerGet_headerAdd_ne _ _ _ _ h1]

/-- Witness for C9's frame conjunct: the caller-supplied `Foo` header is
untouched by `Sign`. -/
theorem sign_frame_effects_witness :
    headerGet (Sign vecSigner vecTime fooReq "").header "Foo" =
      headerGet fooReq.header "Foo" :=
  (sign_frame_effects vecSigner vecTime fooReq "").2.2.2.2.2.2 "Foo"
    (by decide) (by decide)

/-- Claim C10: the payload-hash segment is computed from the payload string
argument alone — the request body is never read (requests differing only in
body produce identical canonical requests and signatures), the canonical
request ends in `hashedBody payload`, and the empty payload hashes to the
zero-byte SHA-256 digest. -/
theorem payload_hash_from_payload_only :
    ∀ (r : Request) (b1 b2 payload : String),
      canonicalString { r with body := b1 } payload
          = canonicalString { r with body := b2 } payload
      ∧ (∀ (t : Timestamp) (region service key : String),
          AWSSignature { r with body := b1 } payload t region service key =
            AWSSignature { r with body := b2 } payload t region service key)
      ∧ canonicalString r payload = r.method ++ "\n" ++ r.escapedPath ++ "\n"
          ++ urlValuesEncode r.query ++ "\n" ++ canonicalHeaders r.header r.host ++ "\n"
          ++ hashedBody payload
      ∧ hashedBody ""
          = "e3b0c44298fc1c149afbf4c8996fb92427ae41e4649b934ca495991b7852b855" := by
  intro r b1 b2 payload
  exact ⟨rfl, fun _ _ _ _ => rfl, rfl, by decide⟩

/-- Claim C2: for every secret, timestamp, region and service, the derived
signing key is exactly the four-stage HMAC-SHA256 chain over
`"AWS4" + secret`, the date-only rendering, the region, the service and
`aws4_request`, in that order with no stage skipped (each field, empty or
not, is one HMAC message); and on the published vector the key hex-encodes
to `c4afb1cc...a4b9`. -/
theorem deriveSigningKey_chain :
    (∀ (secret region service : String) (t : Timestamp),
      deriveSigningKey secret t region service =
        hmacSha256 (hmacSha256 (hmacSha256 (hmacSha256 (strBytes ("AWS4" ++ secret))
          (strBytes (formatDate t))) (strBytes region)) (strBytes service))
          (strBytes terminationString))
    ∧ bytesToHex (deriveSigningKey vecSecret vecTime "us-east-1" "iam")
      = "c4afb1cc5771d871763a393e44b703571b55cc28424d1a5e86da6ed3c154a4b9" :=
  ⟨fun _ _ _ _ => rfl, by decide⟩

/-- Claim C3: on the published SigV4 test vector the end-to-end pipeline
produces the final signature `5d672d79...b5d7`, and the canonical request's
payload-hash segment is the zero-byte SHA-256 digest `e3b0c442...b855`. -/
theorem endToEnd_published_vector :
    AWSSignature vecReq "" vecTime "us-east-1" "iam" vecSecret
      = "5d672d79c15b13162d9279b0855cfba6789a8edb4c82c400e06b5924a6f2b5d7"
    ∧ (splitString '\n' (canonicalString vecReq "")).getLast?
      = some "e3b0c44298fc1c149afbf4c8996fb92427ae41e4649b934ca495991b7852b855" :=
  ⟨by decide, by decide⟩

/-- Counterexample to claim C6 as stated: distinctness of `kService` for
every pair of distinct services cannot hold — `kService` maps the
infinitely many service strings into the finite set of 32-byte digests, so
some two distinct services must share their `kService` (and hence their
`kSigning`). -/
theorem keyChain_distinctness_counterexample :
    ¬ ∀ (secret : String) (t : Timestamp) (region s1 s2 : String), s1 ≠ s2 →
      kService secret t region s1 ≠ kService secret t region s2
      ∧ deriveSigningKey secret t region s1 ≠ deriveSigningKey secret t region s2 := by
  intro hall
  obtain ⟨n, m, hnm, heq⟩ := Finite.exists_ne_map_eq_of_infinite
    (fun n : ℕ => fun i : Fin 32 =>
      (⟨(kService "" vecTime "" (String.mk (List.replicate n 'a'))).getD i.1 0 % 256,
        Nat.mod_lt _ (by norm_num)⟩ : Fin 256))
  set s1 := String.mk (List.replicate n 'a') with hs1
  set s2 := String.mk (List.replicate m 'a') with hs2
  have hs12 : s1 ≠ s2 := by
    intro h
    apply hnm
    have hlen := congrArg (fun s : String => s.data.length) h
    simpa [hs1, hs2] using hlen
  have hklen1 : (kService "" vecTime "" s1).length = 32 := hmacSha256_length _ _
  have hklen2 : (kService "" vecTime "" s2).length = 32 := hmacSha256_length _ _
  have hkeq : kService "" vecTime "" s1 = kService "" vecTime "" s2 := by
    apply List.ext_getElem (by rw [hklen1, hklen2])
    intro i h1 h2
    have hi : i < 32 := by omega
    have hfin := congrFun heq ⟨i, hi⟩
    have hv := congrArg Fin.val hfin
    simp only at hv
    rw [List.getD_eq_getElem _ _ h1, List.getD_eq_getElem _ _ h2] at hv
    have b1 : (kService "" vecTime "" s1)[i] < 256 :=
      mem_hmacSha256_lt _ _ _ (List.getElem_mem h1)
    have b2 : (kService "" vecTime "" s2)[i] < 256 :=
      mem_hmacSha256_lt _ _ _ (List.getElem_mem h2)
    rw [Nat.mod_eq_of_lt b1, Nat.mod_eq_of_lt b2] at hv
    exact hv
  exact (hall "" vecTime "" s1 s2 hs12).1 hkeq

/-- Claim C6 (amended: `kDate` and `kRegion` are independent of the service
— the service first enters the chain at the `kService` stage — and changing
the service does change `kService` and `kSigning` on the vector inputs for
the concrete pair `iam` / `s3`; it cannot do so for every pair of distinct
services, as the counterexample shows). -/
theorem keyChain_service_independence :
    (∀ (secret : String) (t : Timestamp) (region service : String),
      kService secret t region service
        = hmacSha256 (kRegion secret t region) (strBytes service)
      ∧ deriveSigningKey secret t region service
        = hmacSha256 (hmacSha256 (kRegion secret t region) (strBytes service))
            (strBytes terminationString))
    ∧ kService vecSecret vecTime "us-east-1" "iam"
      ≠ kService vecSecret vecTime "us-east-1" "s3"
    ∧ deriveSigningKey vecSecret vecTime "us-east-1" "iam"
      ≠ deriveSigningKey vecSecret vecTime "us-east-1" "s3" :=
  ⟨fun _ _ _ _ => ⟨rfl, rfl⟩, by decide, by decide⟩

/-- Counterexample to claim C8 as stated: the signing operation has no
failure channel — on a request whose path is empty it surfaces nothing and
instead computes a signature over the malformed canonical request. -/
theorem emptyPath_produces_signature :
    emptyPathReq.escapedPath = ""
    ∧ AWSSignature emptyPathReq "" vecTime "us-east-1" "iam" vecSecret
      = "09c4b3582f40e645228a264da950c7d09bc678fd06b985ba01c03ade76028792" :=
  ⟨rfl, by decide⟩

end AwsSign
